import Mathlib

/-!
Verification of the core of `contribs.py` from the `jwodder/ghscripts`
repository: a resilient GraphQL query executor with capped exponential
backoff, an adaptive two-round contribution fetcher, a sparse per-day
per-repository tabulator, and a date-range driver.

Python dictionaries are modelled as insertion-ordered association lists
(`List (κ × ν)`): assignment updates the first occurrence of a key in
place or appends a fresh key at the end, exactly as a Python `dict` does;
lookups find the first occurrence.  Python sets are modelled as
duplicate-free lists (`setInsert` adds a missing element at the end).
Mutation of an argument (the snapshot dict popped from inside
`ContribTabulator.add`) is modelled by returning the mutated dictionary
alongside the new state.
-/

section DictModel

variable {κ : Type _} {ν : Type _} [DecidableEq κ]

/-- Lookup in a Python-dict model: value at the first occurrence of the key. -/
def dlookup : List (κ × ν) → κ → Option ν
  | [], _ => none
  | (k0, v0) :: rest, k => if k0 = k then some v0 else dlookup rest k

/-- Python `d[k] = v`: replace the value at an existing key in place,
otherwise append the new key at the end (insertion order preserved). -/
def dinsert : List (κ × ν) → κ → ν → List (κ × ν)
  | [], k, v => [(k, v)]
  | (k0, v0) :: rest, k, v =>
    if k0 = k then (k0, v) :: rest else (k0, v0) :: dinsert rest k v

/-- Remove the first occurrence of a key (Python `dict.pop` removes the
single entry for the key; keys are unique in a real `dict`). -/
def dremove : List (κ × ν) → κ → List (κ × ν)
  | [], _ => []
  | (k0, v0) :: rest, k => if k0 = k then rest else (k0, v0) :: dremove rest k

/-- Python `d.pop(k, default)`: the removed value (or the default) together
with the dictionary after the removal. -/
def dpop (m : List (κ × ν)) (k : κ) (dflt : ν) : ν × List (κ × ν) :=
  match dlookup m k with
  | some v => (v, dremove m k)
  | none => (dflt, m)

/-- Python `sum(d.values())`. -/
def sumValues (m : List (κ × Nat)) : Nat := (m.map Prod.snd).sum

/-- Python `set.add`: insert an element if it is not already present. -/
def setInsert (s : List κ) (k : κ) : List κ := if k ∈ s then s else s ++ [k]

theorem dlookup_cons (k0 : κ) (v0 : ν) (rest : List (κ × ν)) (k : κ) :
    dlookup ((k0, v0) :: rest) k = if k0 = k then some v0 else dlookup rest k := rfl

theorem dlookup_dinsert (m : List (κ × ν)) (k k' : κ) (v : ν) :
    dlookup (dinsert m k v) k' = if k' = k then some v else dlookup m k' := by
  induction m with
  | nil =>
    show (if k = k' then some v else none) = if k' = k then some v else none
    rcases eq_or_ne k k' with h | h
    · simp [h]
    · simp [h, h.symm]
  | cons p rest ih =>
    obtain ⟨k0, v0⟩ := p
    rcases eq_or_ne k0 k with h0 | h0
    · subst h0
      rcases eq_or_ne k0 k' with h | h
      · simp [dinsert, dlookup_cons, h]
      · simp [dinsert, dlookup_cons, h, h.symm]
    · rcases eq_or_ne k0 k' with h | h
      · subst h
        simp [dinsert, h0, dlookup_cons, Ne.symm h0]
      · simp [dinsert, h0, dlookup_cons, h, ih]

theorem dlookup_isSome_dinsert (m : List (κ × ν)) (k k' : κ) (v : ν)
    (h : (dlookup m k').isSome) : (dlookup (dinsert m k v) k').isSome := by
  rw [dlookup_dinsert]
  by_cases hk : k' = k <;> simp [hk, h]

theorem dlookup_dremove_ne (m : List (κ × ν)) (k k' : κ) (h : k' ≠ k) :
    dlookup (dremove m k) k' = dlookup m k' := by
  induction m with
  | nil => simp [dremove]
  | cons p rest ih =>
    obtain ⟨k0, v0⟩ := p
    rcases eq_or_ne k0 k with h0 | h0
    · subst h0
      simp [dremove, dlookup_cons, Ne.symm h]
    · simp [dremove, h0, dlookup_cons, ih]

theorem dpop_fst (m : List (κ × ν)) (k : κ) (dflt : ν) :
    (dpop m k dflt).1 = (dlookup m k).getD dflt := by
  unfold dpop
  cases dlookup m k <;> simp

theorem dlookup_dpop_snd_ne (m : List (κ × ν)) (k k' : κ) (dflt : ν) (h : k' ≠ k) :
    dlookup (dpop m k dflt).2 k' = dlookup m k' := by
  unfold dpop
  cases dlookup m k <;> simp [dlookup_dremove_ne m k k' h]

theorem dremove_sublist (m : List (κ × ν)) (k : κ) : List.Sublist (dremove m k) m := by
  induction m with
  | nil => simp [dremove]
  | cons p rest ih =>
    obtain ⟨k0, v0⟩ := p
    rcases eq_or_ne k0 k with h0 | h0
    · simp only [dremove, if_pos h0]
      exact List.sublist_cons_self _ _
    · simp only [dremove, h0, if_neg h0]
      exact List.Sublist.cons₂ _ ih

theorem dpop_snd_sublist (m : List (κ × ν)) (k : κ) (dflt : ν) :
    List.Sublist (dpop m k dflt).2 m := by
  unfold dpop
  cases dlookup m k with
  | none => simp
  | some v => simpa using dremove_sublist m k

theorem dlookup_eq_none_of_not_mem (m : List (κ × ν)) (k : κ)
    (h : k ∉ m.map Prod.fst) : dlookup m k = none := by
  induction m with
  | nil => simp [dlookup]
  | cons p rest ih =>
    obtain ⟨k0, v0⟩ := p
    simp only [List.map_cons, List.mem_cons, not_or] at h
    rw [dlookup_cons, if_neg (fun hh => h.1 hh.symm)]
    exact ih h.2

theorem dlookup_isSome_iff_mem (m : List (κ × ν)) (k : κ) :
    (dlookup m k).isSome ↔ k ∈ m.map Prod.fst := by
  induction m with
  | nil => simp [dlookup]
  | cons p rest ih =>
    obtain ⟨k0, v0⟩ := p
    rcases eq_or_ne k0 k with h | h
    · subst h; simp [dlookup_cons]
    · simp [dlookup_cons, h, ih, Ne.symm h]

theorem dlookup_dremove_nodup (m : List (κ × ν)) (k : κ)
    (hnd : (m.map Prod.fst).Nodup) :
    dlookup (dremove m k) k = none := by
  induction m with
  | nil => simp [dremove, dlookup]
  | cons p rest ih =>
    obtain ⟨k0, v0⟩ := p
    simp only [List.map_cons, List.nodup_cons] at hnd
    rcases eq_or_ne k0 k with h0 | h0
    · subst h0
      simp only [dremove, if_pos rfl]
      exact dlookup_eq_none_of_not_mem rest k0 hnd.1
    · simp only [dremove, if_neg h0, dlookup_cons, if_neg h0]
      exact ih hnd.2

theorem keys_dinsert (m : List (κ × ν)) (k : κ) (v : ν) :
    (dinsert m k v).map Prod.fst =
      if k ∈ m.map Prod.fst then m.map Prod.fst else m.map Prod.fst ++ [k] := by
  induction m with
  | nil => simp [dinsert]
  | cons p rest ih =>
    obtain ⟨k0, v0⟩ := p
    rcases eq_or_ne k0 k with h0 | h0
    · subst h0; simp [dinsert]
    · simp only [dinsert, if_neg h0, List.map_cons, ih, List.mem_cons]
      by_cases hm : k ∈ rest.map Prod.fst
      · simp [hm]
      · simp [hm, Ne.symm h0]

theorem keys_nodup_dinsert (m : List (κ × ν)) (k : κ) (v : ν)
    (hnd : (m.map Prod.fst).Nodup) : ((dinsert m k v).map Prod.fst).Nodup := by
  rw [keys_dinsert]
  by_cases hm : k ∈ m.map Prod.fst
  · simpa [hm] using hnd
  · simp only [hm, if_neg, ite_false]
    exact List.Nodup.append hnd (List.nodup_singleton k) (by simpa using hm)

theorem mem_setInsert (s : List κ) (k a : κ) :
    a ∈ setInsert s k ↔ a = k ∨ a ∈ s := by
  unfold setInsert
  by_cases h : k ∈ s
  · simp only [if_pos h]
    constructor
    · exact Or.inr
    · rintro (rfl | ha)
      · exact h
      · exact ha
  · simp [h, or_comm]

theorem nodup_setInsert (s : List κ) (k : κ) (h : s.Nodup) :
    (setInsert s k).Nodup := by
  unfold setInsert
  by_cases hk : k ∈ s
  · simpa [hk]
  · simp only [hk, ite_false]
    exact List.Nodup.append h (List.nodup_singleton k) (by simpa using hk)

end DictModel

/-!
The sparse tabulator (`ContribTabulator` in `contribs.py`).  Dates are
modelled as natural numbers (proleptic day ordinals); repositories are
strings.
-/

/-- One day's snapshot: Python `dict[str, int]` of repository to count. -/
abbrev Snap := List (String × Nat)

/-- One repository's row: Python `dict[date, int]` of date to count. -/
abbrev Row := List (Nat × Nat)

/-- State of `ContribTabulator` (fields `contribs`, `dates`, `totals`). -/
structure ContribTabulator where
  contribs : List (String × Row)
  dates : List Nat
  totals : List (Nat × Nat)
deriving DecidableEq

/-- The tabulator is created empty (all three fields default to empty). -/
def emptyTab : ContribTabulator := ⟨[], [], []⟩

/-- First loop of `ContribTabulator.add`: for every repository already
tracked, set its value at `d` to `contribs.pop(repo, 0)`, threading the
popped-from snapshot through.  Returns the updated rows and what is left
of the snapshot. -/
def consumeTracked (d : Nat) : List (String × Row) → Snap → List (String × Row) × Snap
  | [], snap => ([], snap)
  | (repo, row) :: rest, snap =>
    let pv := dpop snap repo 0
    let r := consumeTracked d rest pv.2
    ((repo, dinsert row d pv.1) :: r.1, r.2)

/-- Row created for a newly seen repository: `{d: count}` followed by
`row[old_date] = 0` for every previously known date. -/
def backfillRow (d : Nat) (count : Nat) (dates : List Nat) : Row :=
  dates.foldl (fun row od => dinsert row od 0) [(d, count)]

/-- Second loop of `ContribTabulator.add`: every repository left in the
snapshot is new; give it a backfilled row. -/
def addNewRepos (d : Nat) (dates : List Nat) (cs : List (String × Row)) (snap : Snap) :
    List (String × Row) :=
  snap.foldl (fun cs2 p => dinsert cs2 p.1 (backfillRow d p.2 dates)) cs

/-- `ContribTabulator.add(d, contribs)`.  The Python method mutates the
caller's `contribs` dict via `pop`; the second component of the result is
that dict as the caller sees it after the call. -/
def ContribTabulator.add (st : ContribTabulator) (d : Nat) (contribs : Snap) :
    ContribTabulator × Snap :=
  let totals := dinsert st.totals d (sumValues contribs)
  let step1 := consumeTracked d st.contribs contribs
  let contribs2 := addNewRepos d st.dates step1.1 step1.2
  (⟨contribs2, setInsert st.dates d, totals⟩, step1.2)

/-- Folding a sequence of `add` calls over the empty tabulator. -/
def addSeq (l : List (Nat × Snap)) : ContribTabulator :=
  l.foldl (fun st p => (st.add p.1 p.2).1) emptyTab

example :
    (addSeq [(0, [("A", 5)]), (1, [("B", 7)])]).contribs
      = [("A", [(0, 5), (1, 0)]), ("B", [(1, 7), (0, 0)])] := by decide

example : (addSeq [(0, [("A", 5)]), (1, [("B", 7)])]).totals = [(0, 5), (1, 7)] := by
  decide

example : ((addSeq [(0, [("A", 5)])]).add 1 [("A", 3)]).2 = [] := by decide

/-! Characterization lemmas for the pieces of `ContribTabulator.add`. -/

theorem consumeTracked_fst_keys (d : Nat) (cs : List (String × Row)) (snap : Snap) :
    (consumeTracked d cs snap).1.map Prod.fst = cs.map Prod.fst := by
  induction cs generalizing snap with
  | nil => simp [consumeTracked]
  | cons p rest ih =>
    obtain ⟨repo, row⟩ := p
    simp [consumeTracked, ih]

theorem consumeTracked_snd_sublist (d : Nat) (cs : List (String × Row)) (snap : Snap) :
    List.Sublist (consumeTracked d cs snap).2 snap := by
  induction cs generalizing snap with
  | nil => simp [consumeTracked]
  | cons p rest ih =>
    obtain ⟨repo, row⟩ := p
    exact List.Sublist.trans (ih (dpop snap repo 0).2) (dpop_snd_sublist snap repo 0)

theorem consumeTracked_fst_lookup (d : Nat) (cs : List (String × Row)) (snap : Snap)
    (r : String) :
    dlookup (consumeTracked d cs snap).1 r =
      (dlookup cs r).map (fun row => dinsert row d ((dlookup snap r).getD 0)) := by
  induction cs generalizing snap with
  | nil => simp [consumeTracked, dlookup]
  | cons p rest ih =>
    obtain ⟨repo, row⟩ := p
    rcases eq_or_ne repo r with h | h
    · subst h
      simp [consumeTracked, dlookup_cons, dpop_fst]
    · simp only [consumeTracked, dlookup_cons, if_neg h, ih]
      rw [dlookup_dpop_snd_ne snap repo r 0 (Ne.symm h)]

theorem consumeTracked_snd_lookup (d : Nat) (cs : List (String × Row)) (snap : Snap)
    (hnd : (snap.map Prod.fst).Nodup) (r : String) :
    dlookup (consumeTracked d cs snap).2 r =
      if r ∈ cs.map Prod.fst then none else dlookup snap r := by
  induction cs generalizing snap with
  | nil => simp [consumeTracked]
  | cons p rest ih =>
    obtain ⟨repo, row⟩ := p
    have hnd2 : (((dpop snap repo 0).2).map Prod.fst).Nodup :=
      List.Nodup.sublist (List.Sublist.map Prod.fst (dpop_snd_sublist snap repo 0)) hnd
    rcases eq_or_ne r repo with h | h
    · subst h
      simp only [consumeTracked, ih (dpop snap r 0).2 hnd2, List.map_cons,
        List.mem_cons, true_or, if_pos]
      by_cases hm : r ∈ rest.map Prod.fst
      · simp [hm]
      · simp only [hm, ite_false]
        unfold dpop
        cases hv : dlookup snap r with
        | none => simpa using hv
        | some v => simpa using dlookup_dremove_nodup snap r hnd
    · simp only [consumeTracked, ih (dpop snap repo 0).2 hnd2, List.map_cons,
        List.mem_cons]
      rw [dlookup_dpop_snd_ne snap repo r 0 h]
      by_cases hm : r ∈ rest.map Prod.fst <;> simp [hm, h]

theorem foldl_backfill_lookup (dates : List Nat) (row : Row) (d' : Nat) :
    dlookup (dates.foldl (fun r od => dinsert r od 0) row) d' =
      if d' ∈ dates then some 0 else dlookup row d' := by
  induction dates generalizing row with
  | nil => simp
  | cons od rest ih =>
    simp only [List.foldl_cons, ih, List.mem_cons]
    by_cases hm : d' ∈ rest
    · simp [hm]
    · simp [hm, dlookup_dinsert]

theorem backfillRow_lookup (d count : Nat) (dates : List Nat) (d' : Nat) :
    dlookup (backfillRow d count dates) d' =
      if d' ∈ dates then some 0 else if d' = d then some count else none := by
  unfold backfillRow
  rw [foldl_backfill_lookup]
  rcases eq_or_ne d' d with h | h
  · simp [h, dlookup_cons]
  · simp [h, dlookup_cons, Ne.symm h, dlookup]

theorem addNewRepos_lookup (d : Nat) (dates : List Nat) (cs : List (String × Row))
    (snap : Snap) (hnd : (snap.map Prod.fst).Nodup) (r : String) :
    dlookup (addNewRepos d dates cs snap) r =
      match dlookup snap r with
      | some c => some (backfillRow d c dates)
      | none => dlookup cs r := by
  induction snap generalizing cs with
  | nil => simp [addNewRepos, dlookup]
  | cons p rest ih =>
    obtain ⟨repo, count⟩ := p
    simp only [List.map_cons, List.nodup_cons] at hnd
    have step : addNewRepos d dates cs ((repo, count) :: rest) =
        addNewRepos d dates (dinsert cs repo (backfillRow d count dates)) rest := rfl
    rw [step, ih _ hnd.2]
    rcases eq_or_ne r repo with h | h
    · subst h
      have hnone : dlookup rest r = none :=
        dlookup_eq_none_of_not_mem rest r (by simpa using hnd.1)
      simp [hnone, dlookup_dinsert, dlookup_cons]
    · simp only [dlookup_cons, if_neg (Ne.symm h), dlookup_dinsert, if_neg h]

theorem addNewRepos_isSome (d : Nat) (dates : List Nat) (cs : List (String × Row))
    (snap : Snap) (r : String) (h : (dlookup cs r).isSome) :
    (dlookup (addNewRepos d dates cs snap) r).isSome := by
  induction snap generalizing cs with
  | nil => simpa [addNewRepos]
  | cons p rest ih =>
    exact ih _ (dlookup_isSome_dinsert cs p.1 r (backfillRow d p.2 dates) h)

theorem addNewRepos_keys_nodup (d : Nat) (dates : List Nat) (cs : List (String × Row))
    (snap : Snap) (hnd : (cs.map Prod.fst).Nodup) :
    ((addNewRepos d dates cs snap).map Prod.fst).Nodup := by
  induction snap generalizing cs with
  | nil => simpa [addNewRepos]
  | cons p rest ih =>
    exact ih _ (keys_nodup_dinsert cs p.1 (backfillRow d p.2 dates) hnd)

/-! Characterization of a single `add` call on the tabulator state. -/

theorem add_dates (st : ContribTabulator) (d : Nat) (snap : Snap) :
    ((st.add d snap).1).dates = setInsert st.dates d := rfl

theorem add_totals (st : ContribTabulator) (d : Nat) (snap : Snap) :
    ((st.add d snap).1).totals = dinsert st.totals d (sumValues snap) := rfl

theorem add_snd (st : ContribTabulator) (d : Nat) (snap : Snap) :
    (st.add d snap).2 = (consumeTracked d st.contribs snap).2 := rfl

theorem add_contribs_lookup (st : ContribTabulator) (d : Nat) (snap : Snap)
    (hsn : (snap.map Prod.fst).Nodup) (r : String) :
    dlookup ((st.add d snap).1).contribs r =
      match (if r ∈ st.contribs.map Prod.fst then none else dlookup snap r) with
      | some c => some (backfillRow d c st.dates)
      | none =>
        (dlookup st.contribs r).map
          (fun row => dinsert row d ((dlookup snap r).getD 0)) := by
  have hnd2 : (((consumeTracked d st.contribs snap).2).map Prod.fst).Nodup :=
    List.Nodup.sublist
      (List.Sublist.map Prod.fst (consumeTracked_snd_sublist d st.contribs snap)) hsn
  show dlookup
      (addNewRepos d st.dates (consumeTracked d st.contribs snap).1
        (consumeTracked d st.contribs snap).2) r = _
  rw [addNewRepos_lookup d st.dates _ _ hnd2 r,
    consumeTracked_snd_lookup d st.contribs snap hsn r,
    consumeTracked_fst_lookup d st.contribs snap r]

/-- Monotonicity of the tracked-repository set under `add`: a repository
tracked before the call is still tracked after it (no nodup assumptions). -/
theorem add_contribs_mono (st : ContribTabulator) (d : Nat) (snap : Snap) (r : String)
    (h : (dlookup st.contribs r).isSome) :
    (dlookup ((st.add d snap).1).contribs r).isSome := by
  show (dlookup
      (addNewRepos d st.dates (consumeTracked d st.contribs snap).1
        (consumeTracked d st.contribs snap).2) r).isSome
  apply addNewRepos_isSome
  rw [consumeTracked_fst_lookup]
  obtain ⟨row, hrow⟩ := Option.isSome_iff_exists.1 h
  simp [hrow]

/-- The inductive invariant of the tabulator after processing the `add`
sequence `l` (one `(date, snapshot)` pair per call, in order). -/
def TabInv (l : List (Nat × Snap)) (st : ContribTabulator) : Prop :=
  (st.contribs.map Prod.fst).Nodup ∧
  st.dates.Nodup ∧
  (∀ d, d ∈ st.dates ↔ d ∈ l.map Prod.fst) ∧
  (∀ r row, dlookup st.contribs r = some row →
      ∀ d, d ∈ st.dates → (dlookup row d).isSome) ∧
  (∀ p, p ∈ l → ∀ r, (dlookup p.2 r).isSome → (dlookup st.contribs r).isSome) ∧
  (∀ p, p ∈ l → ∀ r row, dlookup st.contribs r = some row →
      dlookup row p.1 = some ((dlookup p.2 r).getD 0)) ∧
  (∀ p, p ∈ l → dlookup st.totals p.1 = some (sumValues p.2))

theorem tabInv_nil : TabInv [] emptyTab := by
  refine ⟨by simp [emptyTab], by simp [emptyTab], ?_, ?_, ?_, ?_, ?_⟩ <;>
    simp [emptyTab, dlookup]

theorem tabInv_step (l : List (Nat × Snap)) (st : ContribTabulator) (d : Nat)
    (snap : Snap) (hInv : TabInv l st) (hd : d ∉ l.map Prod.fst)
    (hsn : (snap.map Prod.fst).Nodup) :
    TabInv (l ++ [(d, snap)]) (st.add d snap).1 := by
  obtain ⟨h1, h2, h3, h4, h5, h6, h7⟩ := hInv
  have hdSt : d ∉ st.dates := fun hmem => hd ((h3 d).1 hmem)
  refine ⟨?_, ?_, ?_, ?_, ?_, ?_, ?_⟩
  · -- tracked-repository keys stay duplicate-free
    show ((addNewRepos d st.dates (consumeTracked d st.contribs snap).1
        (consumeTracked d st.contribs snap).2).map Prod.fst).Nodup
    apply addNewRepos_keys_nodup
    rw [consumeTracked_fst_keys]
    exact h1
  · rw [add_dates]
    exact nodup_setInsert st.dates d h2
  · intro d'
    rw [add_dates, mem_setInsert]
    simp only [List.map_append, List.mem_append, h3 d', List.map_cons,
      List.map_nil, List.mem_singleton]
    tauto
  · -- every row has an entry at every known date
    intro r row hrow d' hd'
    rw [add_dates, mem_setInsert] at hd'
    rw [add_contribs_lookup st d snap hsn r] at hrow
    by_cases hmem : r ∈ st.contribs.map Prod.fst
    · simp only [hmem, if_pos] at hrow
      obtain ⟨row0, hrow0, heq⟩ := Option.map_eq_some'.1 hrow
      subst heq
      rw [dlookup_dinsert]
      rcases hd' with h | h
      · simp [h]
      · rcases eq_or_ne d' d with hh | hh
        · simp [hh]
        · simpa [hh] using h4 r row0 hrow0 d' h
    · simp only [hmem, ite_false] at hrow
      cases hsnap : dlookup snap r with
      | none =>
        rw [hsnap] at hrow
        obtain ⟨row0, hrow0, heq⟩ := Option.map_eq_some'.1 hrow
        exact absurd ((dlookup_isSome_iff_mem st.contribs r).1 (by simp [hrow0])) hmem
      | some c =>
        rw [hsnap] at hrow
        simp only [Option.some.injEq] at hrow
        subst hrow
        rw [backfillRow_lookup]
        rcases hd' with h | h
        · simp [h, hdSt]
        · simp [h]
  · -- every snapshot repository ever seen is tracked
    intro p hp r hsome
    rcases List.mem_append.1 hp with hp | hp
    · exact add_contribs_mono st d snap r (h5 p hp r hsome)
    · simp only [List.mem_singleton] at hp
      subst hp
      by_cases hmem : r ∈ st.contribs.map Prod.fst
      · exact add_contribs_mono st d snap r ((dlookup_isSome_iff_mem st.contribs r).2 hmem)
      · rw [add_contribs_lookup st d snap hsn r]
        obtain ⟨c, hc⟩ := Option.isSome_iff_exists.1 hsome
        simp [hmem, hc]
  · -- matrix values match the day's snapshot (zero when absent)
    intro p hp r row hrow
    rw [add_contribs_lookup st d snap hsn r] at hrow
    rcases List.mem_append.1 hp with hp | hp
    · have hp1 : p.1 ∈ l.map Prod.fst := List.mem_map_of_mem Prod.fst hp
      have hne : p.1 ≠ d := fun hh => hd (hh ▸ hp1)
      have hp1St : p.1 ∈ st.dates := (h3 p.1).2 hp1
      by_cases hmem : r ∈ st.contribs.map Prod.fst
      · simp only [hmem, if_pos] at hrow
        obtain ⟨row0, hrow0, heq⟩ := Option.map_eq_some'.1 hrow
        subst heq
        rw [dlookup_dinsert, if_neg hne]
        exact h6 p hp r row0 hrow0
      · simp only [hmem, ite_false] at hrow
        cases hsnap : dlookup snap r with
        | none =>
          rw [hsnap] at hrow
          obtain ⟨row0, hrow0, _⟩ := Option.map_eq_some'.1 hrow
          exact absurd ((dlookup_isSome_iff_mem st.contribs r).1 (by simp [hrow0])) hmem
        | some c =>
          rw [hsnap] at hrow
          simp only [Option.some.injEq] at hrow
          subst hrow
          rw [backfillRow_lookup, if_pos hp1St]
          have hnone : dlookup p.2 r = none := by
            cases hcontra : dlookup p.2 r with
            | none => rfl
            | some v =>
              have := h5 p hp r (by simp [hcontra])
              exact absurd ((dlookup_isSome_iff_mem st.contribs r).1 this) hmem
          simp [hnone]
    · simp only [List.mem_singleton] at hp
      subst hp
      by_cases hmem : r ∈ st.contribs.map Prod.fst
      · simp only [hmem, if_pos] at hrow
        obtain ⟨row0, hrow0, heq⟩ := Option.map_eq_some'.1 hrow
        subst heq
        rw [dlookup_dinsert, if_pos rfl]
      · simp only [hmem, ite_false] at hrow
        cases hsnap : dlookup snap r with
        | none =>
          rw [hsnap] at hrow
          obtain ⟨row0, hrow0, _⟩ := Option.map_eq_some'.1 hrow
          exact absurd ((dlookup_isSome_iff_mem st.contribs r).1 (by simp [hrow0])) hmem
        | some c =>
          rw [hsnap] at hrow
          simp only [Option.some.injEq] at hrow
          subst hrow
          rw [backfillRow_lookup, if_neg hdSt, if_pos rfl]
          simp [hsnap]
  · -- daily totals record each processed snapshot's sum
    intro p hp
    rw [add_totals, dlookup_dinsert]
    rcases List.mem_append.1 hp with hp | hp
    · have hp1 : p.1 ∈ l.map Prod.fst := List.mem_map_of_mem Prod.fst hp
      have hne : p.1 ≠ d := fun hh => hd (hh ▸ hp1)
      rw [if_neg hne]
      exact h7 p hp
    · simp only [List.mem_singleton] at hp
      subst hp
      simp

theorem tabInv_addSeq (l : List (Nat × Snap)) (hnd : (l.map Prod.fst).Nodup)
    (hsn : ∀ p, p ∈ l → (p.2.map Prod.fst).Nodup) : TabInv l (addSeq l) := by
  induction l using List.reverseRecOn with
  | nil => exact tabInv_nil
  | append_singleton l p ih =>
    have hstep : addSeq (l ++ [p]) = ((addSeq l).add p.1 p.2).1 := by
      simp [addSeq, List.foldl_append]
    rw [List.map_append] at hnd
    rcases List.nodup_append.1 hnd with ⟨hnd1, _, hdisj⟩
    have hd : p.1 ∉ l.map Prod.fst := by
      intro hmem
      exact hdisj hmem (by simp)
    have hInv := ih hnd1 (fun q hq => hsn q (List.mem_append.2 (Or.inl hq)))
    rw [hstep]
    have := tabInv_step l (addSeq l) p.1 p.2 hInv hd (hsn p (by simp))
    simpa using this

/-!
The resilient query executor (`Client.query` in `contribs.py`) and the
backoff policy.  An HTTP response is modelled by its status code, whether
the parsed body carries a truthy GraphQL `errors` field, and the `data`
payload.  The transport is a function from the zero-based attempt index to
`Option` of a response; `none` models a transport-level failure (the
`requests` exception that `Client.query` does not catch).  Python floats
are modelled by exact rationals: every value of
`min(1.25 * 2**i, 120)` is exactly representable in binary floating
point, so the two agree.
-/

def MAX_RETRIES : Nat := 5

def RETRY_STATUSES : List Nat := [500, 502, 503, 504]

def BACKOFF_FACTOR : ℚ := 1.25

def MAX_BACKOFF : ℚ := 120

/-- The delay computed on line 83 of `contribs.py` for zero-based attempt
index `i`: `min(BACKOFF_FACTOR * 2**i, MAX_BACKOFF)`. -/
def backoff (i : Nat) : ℚ := min (BACKOFF_FACTOR * 2 ^ i) MAX_BACKOFF

/-- One HTTP response as `Client.query` observes it. -/
structure HttpResp (α : Type) where
  status : Nat
  hasErrors : Bool
  payload : α
deriving DecidableEq

/-- Outcome of `Client.query`: the returned `data` payload, an
`APIException` carrying the terminal response, or an uncaught
transport-level exception. -/
inductive QueryResult (α : Type) where
  | ok (payload : α)
  | apiError (resp : HttpResp α)
  | transportError
deriving DecidableEq

/-- Trace of one `Client.query` call: its outcome, how many POST attempts
were made, and the sleeps performed between attempts, in order. -/
structure QueryTrace (α : Type) where
  result : QueryResult α
  attempts : Nat
  sleeps : List ℚ
deriving DecidableEq

/-- The retry loop of `Client.query`, starting at attempt index `i`.  The
`fuel` argument only serves termination; the loop increments `i` solely
while `i + 1 < MAX_RETRIES`, so `fuel = MAX_RETRIES - 1 - i` never runs
out. -/
def queryAux {α : Type} (t : Nat → Option (HttpResp α)) (i : Nat) (fuel : Nat) :
    QueryTrace α :=
  match t i with
  | none => ⟨.transportError, 1, []⟩
  | some r =>
    if r.status ∈ RETRY_STATUSES then
      if i + 1 < MAX_RETRIES then
        match fuel with
        | 0 => ⟨.apiError r, 1, []⟩
        | fuel' + 1 =>
          let rest := queryAux t (i + 1) fuel'
          ⟨rest.result, rest.attempts + 1, backoff i :: rest.sleeps⟩
      else ⟨.apiError r, 1, []⟩
    else if r.status < 400 then
      if r.hasErrors then ⟨.apiError r, 1, []⟩ else ⟨.ok r.payload, 1, []⟩
    else ⟨.apiError r, 1, []⟩

/-- `Client.query` against the transport `t`: run the retry loop from
attempt index 0. -/
def query {α : Type} (t : Nat → Option (HttpResp α)) : QueryTrace α :=
  queryAux t 0 (MAX_RETRIES - 1)

/-!
The adaptive contribution fetcher (`Client.get_contributions`).  The
GraphQL server is modelled as a function from the query variables to the
relevant part of the response payload.
-/

def REPO_QTY_GUESS : Nat := 10

/-- The variables sent with the fixed `QUERY` document. -/
structure QueryVars where
  fromDt : String
  toDt : String
  maxRepositories : Nat
deriving DecidableEq

/-- The part of the GraphQL payload that `get_contributions` reads: the
true repository count and the (possibly truncated) row list of
`(nameWithOwner, totalCount)` pairs. -/
structure ContribData where
  totalRepositoriesWithContributedCommits : Nat
  commitContributionsByRepository : List (String × Nat)
deriving DecidableEq

/-- The dict comprehension on lines 129 to 134 of `contribs.py`. -/
def buildSnap (rows : List (String × Nat)) : Snap :=
  rows.foldl (fun m p => dinsert m p.1 p.2) []

/-- `Client.get_contributions`, with the server as an oracle.  Returns the
snapshot together with the list of variable sets sent, one entry per
`query` call made. -/
def get_contributions (server : QueryVars → ContribData) (from_dt to_dt : String) :
    Snap × List QueryVars :=
  let v1 : QueryVars := ⟨from_dt, to_dt, REPO_QTY_GUESS⟩
  let data := server v1
  let real_qty := data.totalRepositoriesWithContributedCommits
  if real_qty > REPO_QTY_GUESS then
    let v2 : QueryVars := ⟨from_dt, to_dt, real_qty⟩
    let data2 := server v2
    (buildSnap data2.commitContributionsByRepository, [v1, v2])
  else
    (buildSnap data.commitContributionsByRepository, [v1])

/-!
The date-range driver (`iterdates`) and the rendering step (`to_table`).
A timezone-aware datetime built by `datetime.combine(d, time(h, m, s), tz)`
is modelled field by field; the timezone is an opaque type parameter.
-/

/-- A local timezone-aware datetime: calendar day plus wall-clock time. -/
structure LocalDateTime (τ : Type) where
  day : Nat
  hour : Nat
  minute : Nat
  second : Nat
  tz : τ
deriving DecidableEq

/-- `iterdates(start, end, tz)`: one `(date, windowStart, windowEnd)`
triple per calendar day of the inclusive range. -/
def iterdates {τ : Type} (start e : Nat) (tz : τ) :
    List (Nat × LocalDateTime τ × LocalDateTime τ) :=
  if h : start ≤ e then
    (start, ⟨start, 0, 0, 0, tz⟩, ⟨start, 23, 59, 59, tz⟩) ::
      iterdates (start + 1) e tz
  else []
termination_by e + 1 - start
decreasing_by omega

/-- Python truthiness used on lines 186 and 191 of `contribs.py`: for a
non-negative integer cell value, `x or None` is `None` exactly when `x`
is `0`. -/
def pyOrNone (v : Nat) : Option Nat := if v = 0 then none else some v

/-- How `Txtble` renders a cell value: `None` becomes the empty string
(its default `none_str`), an integer becomes its decimal representation. -/
def renderCell : Option Nat → String
  | none => ""
  | some n => Nat.repr n

/-- Python `row[d]` with the tabulator invariant that `d` is present
(missing dates read as 0 only to make the function total). -/
def dget (m : Row) (d : Nat) : Nat := (dlookup m d).getD 0

/-- The cell list of one repository row of `to_table` (line 184 to 187):
label, one cell per date, then the row total. -/
def entityRowCells (dates : List Nat) (repo : String) (row : Row) : List String :=
  repo :: ((dates.map fun d => renderCell (pyOrNone (dget row d)))
    ++ [Nat.repr (sumValues row)])

/-- The cell list of the final TOTAL row of `to_table` (lines 188 to 194). -/
def totalRowCells (dates : List Nat) (totals : List (Nat × Nat)) : List String :=
  "TOTAL" :: ((dates.map fun d => renderCell (pyOrNone (dget totals d)))
    ++ [Nat.repr (sumValues totals)])

/-- Ascending insertion used to model Python `sorted`. -/
def insertLeB {α : Type} (leB : α → α → Bool) (x : α) : List α → List α
  | [] => [x]
  | y :: ys => if leB x y then x :: y :: ys else y :: insertLeB leB x ys

/-- Python `sorted` with a boolean comparison. -/
def sortLeB {α : Type} (leB : α → α → Bool) (l : List α) : List α :=
  l.foldr (insertLeB leB) []

/-- The data rows of `Txtble` built by `to_table`: repository rows sorted
by name, then the TOTAL row; dates in ascending order. -/
def to_table_rows (st : ContribTabulator) : List (List String) :=
  let dates := sortLeB (fun a b => Nat.ble a b) st.dates
  (sortLeB (fun p q => !(decide (q.1 < p.1))) st.contribs).map
      (fun p => entityRowCells dates p.1 p.2)
    ++ [totalRowCells dates st.totals]

/-! Helper lemmas for the claim theorems. -/

theorem renderCell_pyOrNone (v : Nat) :
    renderCell (pyOrNone v) = if v = 0 then "" else Nat.repr v := by
  unfold pyOrNone renderCell
  by_cases h : v = 0 <;> simp [h]

theorem iterdates_eq_map {τ : Type} (tz : τ) :
    ∀ (n start e : Nat), e + 1 - start = n →
      iterdates start e tz =
        (List.range n).map (fun k =>
          (start + k, ⟨start + k, 0, 0, 0, tz⟩, ⟨start + k, 23, 59, 59, tz⟩)) := by
  intro n
  induction n with
  | zero =>
    intro start e h
    have hgt : ¬ start ≤ e := by omega
    rw [iterdates]
    simp [hgt]
  | succ n ih =>
    intro start e h
    have hle : start ≤ e := by omega
    rw [iterdates]
    simp only [hle, dite_true, dif_pos]
    rw [ih (start + 1) e (by omega), List.range_succ_eq_map, List.map_cons,
      List.map_map]
    congr 1
    apply List.map_congr_left
    intro k _
    have hk : (start + 1) + k = start + (k + 1) := by omega
    simp [Function.comp, hk]

/-- C5: the backoff delay for zero-based attempt index `i` is
`min(1.25 * 2**i, 120)` seconds, it is monotone in the attempt index, and
it never exceeds the 120-second cap.  (As a Lean function it is pure and
deterministic by construction.) -/
theorem backoff_policy :
    (∀ i j : Nat, i < j → backoff i ≤ backoff j) ∧
    (∀ i : Nat, backoff i ≤ 120) ∧
    (∀ i : Nat, backoff i = min ((1.25 : ℚ) * 2 ^ i) 120) := by
  refine ⟨?_, ?_, fun i => rfl⟩
  · intro i j hij
    unfold backoff
    apply min_le_min _ le_rfl
    apply mul_le_mul_of_nonneg_left _ (by norm_num [BACKOFF_FACTOR] : (0 : ℚ) ≤ BACKOFF_FACTOR)
    exact pow_le_pow_right₀ (by norm_num) (Nat.le_of_lt hij)
  · intro i
    exact min_le_right _ _

theorem backoff_policy_witness : (0 : Nat) < 1 ∧ backoff 0 ≤ backoff 1 :=
  ⟨by decide, backoff_policy.1 0 1 (by decide)⟩

/-- C3: against a transport that answers every attempt with the same
response whose status is in the retryable set (such as 503), `query`
makes exactly `MAX_RETRIES = 5` attempts, sleeps the backoff delays for
attempt indices 0 to 3 between them, and fails with an `APIException`
carrying that final response. -/
theorem retry_exhaustion {α : Type} (t : Nat → Option (HttpResp α)) (r : HttpResp α)
    (hall : ∀ i, t i = some r) (hs : r.status ∈ RETRY_STATUSES) :
    query t =
      ⟨.apiError r, MAX_RETRIES, [backoff 0, backoff 1, backoff 2, backoff 3]⟩ := by
  have h4 : queryAux t 4 0 = ⟨.apiError r, 1, []⟩ := by
    unfold queryAux
    rw [hall 4]
    simp [hs, MAX_RETRIES]
  have h3 : queryAux t 3 1 = ⟨.apiError r, 2, [backoff 3]⟩ := by
    unfold queryAux
    rw [hall 3]
    simp [hs, MAX_RETRIES, h4]
  have h2 : queryAux t 2 2 = ⟨.apiError r, 3, [backoff 2, backoff 3]⟩ := by
    unfold queryAux
    rw [hall 2]
    simp [hs, MAX_RETRIES, h3]
  have h1 : queryAux t 1 3 = ⟨.apiError r, 4, [backoff 1, backoff 2, backoff 3]⟩ := by
    unfold queryAux
    rw [hall 1]
    simp [hs, MAX_RETRIES, h2]
  have h0 : queryAux t 0 4 =
      ⟨.apiError r, 5, [backoff 0, backoff 1, backoff 2, backoff 3]⟩ := by
    unfold queryAux
    rw [hall 0]
    simp [hs, MAX_RETRIES, h1]
  unfold query
  show queryAux t 0 (MAX_RETRIES - 1) = _
  simpa [MAX_RETRIES] using h0

theorem retry_exhaustion_witness :
    query (fun _ => some (⟨503, false, 0⟩ : HttpResp Nat)) =
      ⟨.apiError ⟨503, false, 0⟩, MAX_RETRIES,
        [backoff 0, backoff 1, backoff 2, backoff 3]⟩ :=
  retry_exhaustion (fun _ => some ⟨503, false, 0⟩) ⟨503, false, 0⟩
    (fun _ => rfl) (by decide)

/-- C4: a first attempt answered with HTTP 200 whose parsed body carries a
truthy `errors` field makes exactly one attempt, sleeps never, and fails
immediately with an `APIException`. -/
theorem no_retry_on_graphql_error {α : Type} (t : Nat → Option (HttpResp α))
    (r : HttpResp α) (h0 : t 0 = some r) (hst : r.status = 200)
    (herr : r.hasErrors = true) :
    query t = ⟨.apiError r, 1, []⟩ := by
  unfold query queryAux
  rw [h0]
  simp [hst, herr, RETRY_STATUSES]

theorem no_retry_on_graphql_error_witness :
    query (fun _ => some (⟨200, true, 0⟩ : HttpResp Nat)) =
      ⟨.apiError ⟨200, true, 0⟩, 1, []⟩ :=
  no_retry_on_graphql_error (fun _ => some ⟨200, true, 0⟩) ⟨200, true, 0⟩
    rfl rfl rfl

/-- C9: a transport-level failure (no HTTP status obtained) on the first
attempt propagates after a single attempt, with no retry, no sleep, and
no wrapping in `APIException`. -/
theorem transport_failure_not_retried {α : Type} (t : Nat → Option (HttpResp α))
    (h0 : t 0 = none) : query t = ⟨.transportError, 1, []⟩ := by
  unfold query queryAux
  rw [h0]

theorem transport_failure_not_retried_witness :
    query (fun _ => (none : Option (HttpResp Nat))) = ⟨.transportError, 1, []⟩ :=
  transport_failure_not_retried (fun _ => none) rfl

/-- C2: `get_contributions` issues one query with `maxRepositories = 10`;
if the reported true count is at most 10 that call's row list builds the
result and no second call is made, if it exceeds 10 exactly one more call
is made with `maxRepositories` equal to the true count and its row list is
authoritative, and a reported true count of 0 (with the server returning
no more rows than the true count) yields the empty mapping from the single
call. -/
theorem adaptive_fetch (server : QueryVars → ContribData) (from_dt to_dt : String)
    (hwb : ((server ⟨from_dt, to_dt, REPO_QTY_GUESS⟩).commitContributionsByRepository).length
      ≤ (server ⟨from_dt, to_dt, REPO_QTY_GUESS⟩).totalRepositoriesWithContributedCommits) :
    (((server ⟨from_dt, to_dt, REPO_QTY_GUESS⟩).totalRepositoriesWithContributedCommits
        ≤ REPO_QTY_GUESS →
      (get_contributions server from_dt to_dt).2 = [⟨from_dt, to_dt, REPO_QTY_GUESS⟩] ∧
      (get_contributions server from_dt to_dt).1 =
        buildSnap (server ⟨from_dt, to_dt, REPO_QTY_GUESS⟩).commitContributionsByRepository))
    ∧ ((REPO_QTY_GUESS <
        (server ⟨from_dt, to_dt, REPO_QTY_GUESS⟩).totalRepositoriesWithContributedCommits →
      (get_contributions server from_dt to_dt).2 =
        [⟨from_dt, to_dt, REPO_QTY_GUESS⟩,
          ⟨from_dt, to_dt,
            (server ⟨from_dt, to_dt, REPO_QTY_GUESS⟩).totalRepositoriesWithContributedCommits⟩] ∧
      (get_contributions server from_dt to_dt).1 =
        buildSnap (server ⟨from_dt, to_dt,
          (server ⟨from_dt, to_dt, REPO_QTY_GUESS⟩).totalRepositoriesWithContributedCommits⟩).commitContributionsByRepository))
    ∧ ((server ⟨from_dt, to_dt, REPO_QTY_GUESS⟩).totalRepositoriesWithContributedCommits = 0 →
      (get_contributions server from_dt to_dt).1 = [] ∧
      (get_contributions server from_dt to_dt).2 = [⟨from_dt, to_dt, REPO_QTY_GUESS⟩]) := by
  refine ⟨?_, ?_, ?_⟩
  · intro hle
    have hngt : ¬ (server ⟨from_dt, to_dt, REPO_QTY_GUESS⟩).totalRepositoriesWithContributedCommits
        > REPO_QTY_GUESS := by omega
    unfold get_contributions
    simp [hngt]
  · intro hgt
    unfold get_contributions
    simp [hgt]
  · intro hzero
    have hngt : ¬ (server ⟨from_dt, to_dt, REPO_QTY_GUESS⟩).totalRepositoriesWithContributedCommits
        > REPO_QTY_GUESS := by omega
    have hrows : (server ⟨from_dt, to_dt, REPO_QTY_GUESS⟩).commitContributionsByRepository = [] := by
      have : ((server ⟨from_dt, to_dt, REPO_QTY_GUESS⟩).commitContributionsByRepository).length = 0 := by
        omega
      exact List.eq_nil_of_length_eq_zero this
    unfold get_contributions
    simp [hngt, hrows, buildSnap]

/-- A server whose reported true count (25) exceeds the initial guess. -/
def serverBig : QueryVars → ContribData := fun v =>
  if v.maxRepositories = 10 then ⟨25, [("a", 1)]⟩ else ⟨25, [("a", 1), ("b", 2)]⟩

/-- A server reporting a true count of zero. -/
def serverZero : QueryVars → ContribData := fun _ => ⟨0, []⟩

theorem adaptive_fetch_witness :
    (get_contributions serverBig "f" "t").2 = [⟨"f", "t", 10⟩, ⟨"f", "t", 25⟩] ∧
    (get_contributions serverBig "f" "t").1 = buildSnap [("a", 1), ("b", 2)] ∧
    (get_contributions serverZero "f" "t").1 = [] ∧
    (get_contributions serverZero "f" "t").2 = [⟨"f", "t", 10⟩] := by
  have hbig := (adaptive_fetch serverBig "f" "t" (by decide)).2.1 (by decide)
  have hzero := (adaptive_fetch serverZero "f" "t" (by decide)).2.2 (by decide)
  refine ⟨?_, ?_, hzero.1, hzero.2⟩
  · have h := hbig.1
    simpa [serverBig, REPO_QTY_GUESS] using h
  · have h := hbig.2
    simpa [serverBig, REPO_QTY_GUESS] using h

/-- C7: for any start date, end date and timezone, `iterdates` is the
finite ascending list with exactly one `(date, windowStart, windowEnd)`
triple per calendar day of the inclusive range, where the window start is
local midnight and the window end is local 23:59:59 of the same day; for
`start ≤ e` its length is the number of days in the range. -/
theorem iterdates_spec :
    (∀ (τ : Type) (start e : Nat) (tz : τ),
      iterdates start e tz =
        (List.range (e + 1 - start)).map (fun k =>
          (start + k, ⟨start + k, 0, 0, 0, tz⟩, ⟨start + k, 23, 59, 59, tz⟩)))
    ∧ (∀ (τ : Type) (start e : Nat) (tz : τ), start ≤ e →
        (iterdates start e tz).length = e - start + 1) := by
  constructor
  · intro τ start e tz
    exact iterdates_eq_map tz (e + 1 - start) start e rfl
  · intro τ start e tz hle
    rw [iterdates_eq_map tz (e + 1 - start) start e rfl]
    simp only [List.length_map, List.length_range]
    omega

theorem iterdates_spec_witness :
    (0 : Nat) ≤ 2 ∧ (iterdates 0 2 ()).length = 2 - 0 + 1 :=
  ⟨by decide, iterdates_spec.2 Unit 0 2 () (by decide)⟩

/-- C8: in a rendered repository row or in the TOTAL row, the cell for the
date at position `k` of the date header (cell index `k + 1`, after the
label) is the empty string when the underlying value is 0 and the decimal
text of the value otherwise. -/
theorem render_zero_suppression (dates : List Nat) (repo : String) (row : Row)
    (totals : List (Nat × Nat)) (k d : Nat) (hk : dates[k]? = some d) :
    (entityRowCells dates repo row)[k + 1]? =
      some (if dget row d = 0 then "" else Nat.repr (dget row d)) ∧
    (totalRowCells dates totals)[k + 1]? =
      some (if dget totals d = 0 then "" else Nat.repr (dget totals d)) := by
  have hlt : k < dates.length := by
    by_contra hge
    rw [List.getElem?_eq_none (by omega)] at hk
    cases hk
  constructor
  · show (repo :: (_ ++ _))[k + 1]? = _
    rw [List.getElem?_cons_succ, List.getElem?_append,
      if_pos (by simpa using hlt), List.getElem?_map, hk]
    simp [renderCell_pyOrNone]
  · show ((("TOTAL") : String) :: (_ ++ _))[k + 1]? = _
    rw [List.getElem?_cons_succ, List.getElem?_append,
      if_pos (by simpa using hlt), List.getElem?_map, hk]
    simp [renderCell_pyOrNone]

theorem render_zero_suppression_witness :
    (entityRowCells [3, 4] "A" [(3, 5)])[1]? = some "5" ∧
    (entityRowCells [3, 4] "A" [(3, 5)])[2]? = some "" := by
  have h1 := (render_zero_suppression [3, 4] "A" [(3, 5)] [] 0 3 rfl).1
  have h2 := (render_zero_suppression [3, 4] "A" [(3, 5)] [] 1 4 rfl).1
  constructor
  · rw [h1]; decide
  · rw [h2]; decide

/-- C10: the trailing Total column (cell index `dates.length + 1`, the
last cell of each row) always holds the decimal text of the row sum, both
for repository rows and for the TOTAL row, even when that sum is 0 — the
blank-for-zero rule applies only to the per-date cells. -/
theorem total_column_numeric (dates : List Nat) (repo : String) (row : Row)
    (totals : List (Nat × Nat)) :
    (entityRowCells dates repo row).length = dates.length + 2 ∧
    (entityRowCells dates repo row)[dates.length + 1]? =
      some (Nat.repr (sumValues row)) ∧
    (totalRowCells dates totals)[dates.length + 1]? =
      some (Nat.repr (sumValues totals)) ∧
    (sumValues row = 0 →
      (entityRowCells dates repo row)[dates.length + 1]? = some "0") := by
  have h2 : (entityRowCells dates repo row)[dates.length + 1]? =
      some (Nat.repr (sumValues row)) := by
    show (repo :: (_ ++ _))[dates.length + 1]? = _
    rw [List.getElem?_cons_succ, List.getElem?_append_right (by simp)]
    simp
  refine ⟨by simp [entityRowCells], h2, ?_, ?_⟩
  · show ((("TOTAL") : String) :: (_ ++ _))[dates.length + 1]? = _
    rw [List.getElem?_cons_succ, List.getElem?_append_right (by simp)]
    simp
  · intro h0
    rw [h2, h0]
    rfl

theorem total_column_numeric_witness :
    sumValues ([(3, 0)] : Row) = 0 ∧
    (entityRowCells [3] "A" [(3, 0)])[2]? = some "0" := by
  refine ⟨by decide, ?_⟩
  have h := (total_column_numeric [3] "A" [(3, 0)] []).2.2.2 (by decide)
  simpa using h

/-- C1: over any sequence of `add` calls starting from the empty tabulator
(dates pairwise distinct and each snapshot a genuine dict, as in the
driving loop), after processing: every tracked repository's row has an
entry at every known date; that entry equals the count the day's snapshot
gave the repository, zero when absent; the daily total of each processed
day equals the sum of that day's snapshot; a repository once tracked is
never removed by a later `add`; each `add` records the snapshot's sum as
that date's total; and the two-day example from the specification yields
exactly the backfilled matrix and totals it prescribes. -/
theorem tabulator_invariants :
    (∀ (l : List (Nat × Snap)),
      (l.map Prod.fst).Nodup →
      (∀ p, p ∈ l → (p.2.map Prod.fst).Nodup) →
      (∀ r row, dlookup (addSeq l).contribs r = some row →
          ∀ d, d ∈ (addSeq l).dates → (dlookup row d).isSome) ∧
      (∀ p, p ∈ l → ∀ r row, dlookup (addSeq l).contribs r = some row →
          dlookup row p.1 = some ((dlookup p.2 r).getD 0)) ∧
      (∀ p, p ∈ l → dlookup (addSeq l).totals p.1 = some (sumValues p.2))) ∧
    (∀ (st : ContribTabulator) (d : Nat) (snap : Snap) (r : String),
        (dlookup st.contribs r).isSome →
        (dlookup ((st.add d snap).1).contribs r).isSome) ∧
    (∀ (st : ContribTabulator) (d : Nat) (snap : Snap),
        dlookup ((st.add d snap).1).totals d = some (sumValues snap)) ∧
    ((dlookup (addSeq [(0, [("A", 5)]), (1, [("B", 7)])]).contribs "A").map
        (fun row => (dlookup row 0, dlookup row 1)) = some (some 5, some 0) ∧
      (dlookup (addSeq [(0, [("A", 5)]), (1, [("B", 7)])]).contribs "B").map
        (fun row => (dlookup row 0, dlookup row 1)) = some (some 0, some 7) ∧
      dlookup (addSeq [(0, [("A", 5)]), (1, [("B", 7)])]).totals 0 = some 5 ∧
      dlookup (addSeq [(0, [("A", 5)]), (1, [("B", 7)])]).totals 1 = some 7) := by
  refine ⟨?_, add_contribs_mono, ?_, by decide⟩
  · intro l hnd hsn
    obtain ⟨h1, h2, h3, h4, h5, h6, h7⟩ := tabInv_addSeq l hnd hsn
    exact ⟨h4, h6, h7⟩
  · intro st d snap
    rw [add_totals, dlookup_dinsert]
    simp

theorem tabulator_invariants_witness :
    dlookup (addSeq [(0, [("A", 5)]), (1, [("B", 7)])]).totals 1 = some 7 := by
  have h := (tabulator_invariants.1 [(0, [("A", 5)]), (1, [("B", 7)])] (by decide)
    (by decide)).2.2 (1, [("B", 7)]) (by decide)
  rw [h]
  decide

/-- C6 counterexample: with repository A already tracked, the caller's
snapshot dict passed to `add` does not come back unchanged — its entry
for A has been popped, so the claim that `add` leaves the supplied
snapshot mapping unchanged is false. -/
theorem snapshot_mutation_cex :
    ((addSeq [(0, [("A", 5)])]).add 1 [("A", 3)]).2 ≠ [("A", 3)] ∧
    ((addSeq [(0, [("A", 5)])]).add 1 [("A", 3)]).2 = [] := by decide

/-- C6 amended: `add` consumes already-tracked repositories from the
caller's snapshot mapping itself (no working copy is made): after the
call the caller's mapping holds exactly the entries whose repository was
not yet tracked, and an already-tracked repository's entry is removed. -/
theorem add_consumes_callers_snapshot (st : ContribTabulator) (d : Nat) (snap : Snap)
    (hsn : (snap.map Prod.fst).Nodup) (r : String) :
    dlookup ((st.add d snap).2) r =
      if r ∈ st.contribs.map Prod.fst then none else dlookup snap r := by
  rw [add_snd]
  exact consumeTracked_snd_lookup d st.contribs snap hsn r

theorem add_consumes_callers_snapshot_witness :
    dlookup (((addSeq [(0, [("A", 5)])]).add 1 [("A", 3), ("C", 2)]).2) "A" = none ∧
    dlookup (((addSeq [(0, [("A", 5)])]).add 1 [("A", 3), ("C", 2)]).2) "C" = some 2 := by
  have hA := add_consumes_callers_snapshot (addSeq [(0, [("A", 5)])]) 1
    [("A", 3), ("C", 2)] (by decide) "A"
  have hC := add_consumes_callers_snapshot (addSeq [(0, [("A", 5)])]) 1
    [("A", 3), ("C", 2)] (by decide) "C"
  constructor
  · rw [hA]; decide
  · rw [hC]; decide
